import Mathlib

/-!
Verification of the adapter layer and pipeline combinators described in the
specification of the `matminer_examples` sklearn-pipeline notebook
(`src/matminer_examples/machine_learning-nb/sklearn_pipeline.ipynb`).

The notebook itself is glue code; the operations it relies on
(`ItemSelector`, `DropExcluded`, `FeatureUnion`, the cross-validation and
hyper-parameter search machinery, pandas `DataFrame.drop`) live in external
libraries whose sources are not part of the repository.  Following the
specification, those operations are modelled here from the spec's contracts
and the notebook's usage, and the testable properties of the spec are proved
against the models.
-/

namespace MatminerPipeline

/-- A tabular dataset: an ordered list of named columns, each column an
ordered list of row values.  Rows are aligned positionally across columns
(`WFRows` below states the row-count invariant). -/
structure Dataset (α : Type) where
  cols : List (String × List α)
deriving DecidableEq, Repr

/-- The ordered field (column-name) list of a dataset. -/
def fieldsOf {α : Type} (d : Dataset α) : List String :=
  d.cols.map Prod.fst

/-- Whether a field name is present in the dataset. -/
def hasField {α : Type} (d : Dataset α) (f : String) : Bool :=
  (fieldsOf d).contains f

/-- The dataset has exactly `r` rows: every column holds `r` values. -/
def WFRows {α : Type} (d : Dataset α) (r : Nat) : Prop :=
  ∀ c ∈ d.cols, c.2.length = r

instance {α : Type} (d : Dataset α) (r : Nat) : Decidable (WFRows d r) :=
  inferInstanceAs (Decidable (∀ c ∈ d.cols, c.2.length = r))

/-- Modelled from the spec: the field-exclusion adapter `DropExcluded`
(`matminer.utils.pipeline`, used in the notebook's feature union; its source
is not part of this repository).  Given a set of field names to exclude it
returns a new dataset view containing all remaining fields, preserving row
order and all non-excluded field values; unknown names are ignored. -/
def dropExcluded {α : Type} (excluded : List String) (d : Dataset α) : Dataset α :=
  ⟨d.cols.filter (fun c => !(excluded.contains c.1))⟩

/-- Modelled from the spec: the field-selection adapter `ItemSelector`
(`matminer.utils.pipeline`; its source is not part of this repository).
Given a field name it returns the values of that single field unchanged, in
row order, or `none` when the field is absent. -/
def itemSelector {α : Type} (key : String) (d : Dataset α) : Option (List α) :=
  (d.cols.find? (fun c => c.1 == key)).map Prod.snd

/-- Re-embedding a selected column back into a single-column frame. -/
def reembed {α : Type} (key : String) (vs : List α) : Dataset α :=
  ⟨[(key, vs)]⟩

/-- The error signalled by the field-selection adapter on a missing field. -/
inductive AdapterError where
  | missingField : String → AdapterError
deriving DecidableEq, Repr

/-- Modelled from the spec: the field-selection adapter in its fallible form,
signalling a `MissingFieldError` when the field is absent and propagating it
with no partial result. -/
def itemSelectorE {α : Type} (key : String) (d : Dataset α) :
    Except AdapterError (List α) :=
  match d.cols.find? (fun c => c.1 == key) with
  | some c => Except.ok c.2
  | none => Except.error (AdapterError.missingField key)

end MatminerPipeline

namespace MatminerPipeline

theorem mem_fieldsOf_dropExcluded {α : Type} (excluded : List String)
    (d : Dataset α) (f : String) :
    f ∈ fieldsOf (dropExcluded excluded d) ↔
      f ∈ fieldsOf d ∧ f ∉ excluded := by
  simp only [fieldsOf, dropExcluded, List.mem_map, List.mem_filter]
  constructor
  · rintro ⟨c, ⟨hc, hnc⟩, rfl⟩
    refine ⟨⟨c, hc, rfl⟩, ?_⟩
    simpa using hnc
  · rintro ⟨⟨c, hc, rfl⟩, hne⟩
    exact ⟨c, ⟨hc, by simpa using hne⟩, rfl⟩

theorem wfRows_dropExcluded {α : Type} (excluded : List String)
    (d : Dataset α) (r : Nat) (h : WFRows d r) :
    WFRows (dropExcluded excluded d) r := by
  intro c hc
  exact h c (List.mem_of_mem_filter hc)

theorem dropExcluded_unknown_ignored {α : Type} (excluded : List String)
    (d : Dataset α) (g : String) (hg : g ∉ fieldsOf d) :
    dropExcluded (g :: excluded) d = dropExcluded excluded d := by
  simp only [dropExcluded, Dataset.mk.injEq]
  apply List.filter_congr
  intro c hc
  have hne : c.1 ≠ g := by
    intro hEq
    exact hg (hEq ▸ List.mem_map_of_mem Prod.fst hc)
  simp [List.contains_cons, hne, Ne.symm hne]

end MatminerPipeline

namespace MatminerPipeline

theorem hasField_true_iff {α : Type} (d : Dataset α) (key : String) :
    hasField d key = true ↔ ∃ c ∈ d.cols, c.1 = key := by
  simp only [hasField, fieldsOf, List.contains_iff_exists_mem_beq,
    List.mem_map, beq_iff_eq]
  constructor
  · rintro ⟨f, ⟨c, hc, rfl⟩, rfl⟩
    exact ⟨c, hc, rfl⟩
  · rintro ⟨c, hc, rfl⟩
    exact ⟨c.1, ⟨c, hc, rfl⟩, rfl⟩

theorem find?_eq_some_of_mem_nodup {α : Type} (f : String) (vs : List α) :
    ∀ (cols : List (String × List α)), (f, vs) ∈ cols →
      (cols.map Prod.fst).Nodup →
      cols.find? (fun c => c.1 == f) = some (f, vs) := by
  intro cols
  induction cols with
  | nil => intro h; cases h
  | cons c cols ih =>
    intro hmem hnd
    rcases List.mem_cons.mp hmem with hEq | htail
    · subst hEq
      simp [List.find?]
    · have hf : f ∈ cols.map Prod.fst :=
        List.mem_map_of_mem Prod.fst htail
      have hne : c.1 ≠ f := by
        intro h
        exact (List.nodup_cons.mp hnd).1 (h ▸ hf)
      have hnd' : (cols.map Prod.fst).Nodup := (List.nodup_cons.mp hnd).2
      have hb : (c.1 == f) = false := by simp [hne]
      simp [List.find?, hb, ih htail hnd']

/-- Specific to claim C2: the field-exclusion adapter's output field set is
the input's field set minus the excluded names (unknown excluded names are
tolerated and simply ignored), and the row count is unchanged. -/
theorem dropExcluded_field_set {α : Type} (excluded : List String)
    (d : Dataset α) (r : Nat) (h : WFRows d r) :
    (∀ f, f ∈ fieldsOf (dropExcluded excluded d) ↔
        f ∈ fieldsOf d ∧ f ∉ excluded) ∧
    WFRows (dropExcluded excluded d) r ∧
    (∀ g, g ∉ fieldsOf d →
        dropExcluded (g :: excluded) d = dropExcluded excluded d) :=
  ⟨fun f => mem_fieldsOf_dropExcluded excluded d f,
   wfRows_dropExcluded excluded d r h,
   fun g hg => dropExcluded_unknown_ignored excluded d g hg⟩

/-- A small concrete dataset used to instantiate the adapter theorems. -/
def dSample : Dataset Nat :=
  ⟨[("material_id", [7, 8]), ("K_VRH", [1, 2]), ("density", [3, 4])]⟩

/-- Witness for `dropExcluded_field_set` at a concrete dataset, with an
exclusion list containing one present and one absent name. -/
theorem dropExcluded_field_set_witness :
    (∀ f, f ∈ fieldsOf (dropExcluded ["K_VRH", "absent"] dSample) ↔
        f ∈ fieldsOf dSample ∧ f ∉ ["K_VRH", "absent"]) ∧
    WFRows (dropExcluded ["K_VRH", "absent"] dSample) 2 ∧
    (∀ g, g ∉ fieldsOf dSample →
        dropExcluded (g :: ["K_VRH", "absent"]) dSample =
          dropExcluded ["K_VRH", "absent"] dSample) :=
  dropExcluded_field_set ["K_VRH", "absent"] dSample 2 (by decide)

/-- Specific to claim C3: selecting a present field returns its values
unchanged and in row order, and re-embedding the selected column into a
single-column frame and selecting again yields the same values (round-trip
on selection). -/
theorem itemSelector_roundtrip {α : Type} (d : Dataset α) (f : String)
    (vs : List α) (hmem : (f, vs) ∈ d.cols)
    (hnodup : (fieldsOf d).Nodup) :
    itemSelector f d = some vs ∧
    itemSelector f (reembed f vs) = some vs := by
  constructor
  · simp [itemSelector,
      find?_eq_some_of_mem_nodup f vs d.cols hmem hnodup]
  · simp [itemSelector, reembed, List.find?]

/-- Witness for `itemSelector_roundtrip` at a concrete dataset and field. -/
theorem itemSelector_roundtrip_witness :
    itemSelector "density" dSample = some [3, 4] ∧
    itemSelector "density" (reembed "density" [3, 4]) = some [3, 4] :=
  itemSelector_roundtrip dSample "density" [3, 4] (by decide) (by decide)

/-- Specific to claim C4: the fallible field-selection adapter signals a
missing-field error exactly when the field is absent, and a successful
result implies the field was present (no partial result on failure). -/
theorem itemSelectorE_missing_iff {α : Type} (key : String) (d : Dataset α) :
    (itemSelectorE key d = Except.error (AdapterError.missingField key) ↔
      hasField d key = false) ∧
    (∀ vs, itemSelectorE key d = Except.ok vs → hasField d key = true) := by
  rcases hfind : d.cols.find? (fun c => c.1 == key) with _ | c
  · have habs : hasField d key = false := by
      rw [Bool.eq_false_iff]
      intro htrue
      rcases (hasField_true_iff d key).mp htrue with ⟨c, hc, hkey⟩
      have := List.find?_eq_none.mp hfind c hc
      simp [hkey] at this
    constructor
    · simp [itemSelectorE, hfind, habs]
    · intro vs hok
      simp [itemSelectorE, hfind] at hok
  · have hc : c ∈ d.cols := List.mem_of_find?_eq_some hfind
    have hkey : c.1 = key := by
      have := List.find?_some hfind
      simpa using this
    have hpres : hasField d key = true :=
      (hasField_true_iff d key).mpr ⟨c, hc, hkey⟩
    constructor
    · simp [itemSelectorE, hfind, hpres]
    · intro vs _
      exact hpres

end MatminerPipeline

namespace MatminerPipeline

/-- A store of named datasets, modelling the notebook's environment of
in-memory frames.  Adapters read a source frame and bind a fresh output
frame; they never modify an existing binding. -/
abbrev Store (α : Type) := List (String × Dataset α)

/-- Look up a dataset by name (first binding wins). -/
def lookupStore {α : Type} (s : Store α) (k : String) : Option (Dataset α) :=
  (s.find? (fun p => p.1 == k)).map Prod.snd

/-- Modelled from the spec: running the field-exclusion adapter against a
store of frames.  It reads the source frame, computes the excluded view and
binds it to a fresh output name; the source binding is left untouched. -/
def runDropExcluded {α : Type} (excluded : List String) (s : Store α)
    (src dst : String) : Store α :=
  match lookupStore s src with
  | some d => (dst, dropExcluded excluded d) :: s
  | none => s

theorem lookupStore_cons_ne {α : Type} (s : Store α) (dst k : String)
    (d : Dataset α) (h : k ≠ dst) :
    lookupStore ((dst, d) :: s) k = lookupStore s k := by
  have hb : (dst == k) = false := by
    simp [Ne.symm h]
  simp [lookupStore, List.find?, hb]

/-- Specific to claim C5: applying the field-exclusion adapter leaves the
original dataset binding (and every other binding) unchanged; the output is
a fresh binding holding the excluded view. -/
theorem runDropExcluded_frame {α : Type} (excluded : List String)
    (s : Store α) (src dst : String) (hne : src ≠ dst) :
    lookupStore (runDropExcluded excluded s src dst) src =
      lookupStore s src ∧
    (∀ k, k ≠ dst →
      lookupStore (runDropExcluded excluded s src dst) k = lookupStore s k) ∧
    (∀ d, lookupStore s src = some d →
      lookupStore (runDropExcluded excluded s src dst) dst =
        some (dropExcluded excluded d)) := by
  refine ⟨?_, ?_, ?_⟩
  · rcases hsrc : lookupStore s src with _ | d
    · simp [runDropExcluded, hsrc]
    · simp only [runDropExcluded, hsrc]
      rw [lookupStore_cons_ne s dst src (dropExcluded excluded d) hne]
      exact hsrc
  · intro k hk
    rcases hsrc : lookupStore s src with _ | d
    · simp [runDropExcluded, hsrc]
    · simp only [runDropExcluded, hsrc]
      exact lookupStore_cons_ne s dst k (dropExcluded excluded d) hk
  · intro d hd
    simp only [runDropExcluded, hd]
    simp [lookupStore, List.find?]

/-- Witness for `runDropExcluded_frame` at a concrete store. -/
theorem runDropExcluded_frame_witness :
    lookupStore (runDropExcluded ["K_VRH"] [("df", dSample)] "df" "dropped")
        "df" = lookupStore [("df", dSample)] "df" ∧
    (∀ k, k ≠ "dropped" →
      lookupStore (runDropExcluded ["K_VRH"] [("df", dSample)] "df" "dropped")
          k = lookupStore [("df", dSample)] k) ∧
    (∀ d, lookupStore [("df", dSample)] "df" = some d →
      lookupStore (runDropExcluded ["K_VRH"] [("df", dSample)] "df" "dropped")
          "dropped" = some (dropExcluded ["K_VRH"] d)) :=
  runDropExcluded_frame ["K_VRH"] [("df", dSample)] "df" "dropped" (by decide)

/-- The notebook's excluded-field list, copied from the notebook cell that
builds the feature union. -/
def notebookExcluded : List String :=
  ["G_VRH", "K_VRH", "elastic_anisotropy", "formula", "material_id",
   "poisson_ratio", "structure", "composition", "composition_oxid"]

theorem hasField_dropExcluded_of_mem {α : Type} (excluded : List String)
    (d : Dataset α) (f : String) (hf : f ∈ excluded) :
    hasField (dropExcluded excluded d) f = false := by
  rw [Bool.eq_false_iff]
  intro htrue
  rcases (hasField_true_iff (dropExcluded excluded d) f).mp htrue
    with ⟨c, hc, hkey⟩
  have hmem : f ∈ fieldsOf (dropExcluded excluded d) :=
    hkey ▸ List.mem_map_of_mem Prod.fst hc
  exact ((mem_fieldsOf_dropExcluded excluded d f).mp hmem).2 hf

/-- Specific to claim C9: the target fields `K_VRH` and `G_VRH` are members
of the notebook's excluded list, so the drop branch of the feature union can
never emit the column the target vector was extracted from. -/
theorem notebook_no_target_leakage {α : Type} (d : Dataset α) :
    "K_VRH" ∈ notebookExcluded ∧ "G_VRH" ∈ notebookExcluded ∧
    hasField (dropExcluded notebookExcluded d) "K_VRH" = false ∧
    hasField (dropExcluded notebookExcluded d) "G_VRH" = false :=
  ⟨by decide, by decide,
   hasField_dropExcluded_of_mem notebookExcluded d "K_VRH" (by decide),
   hasField_dropExcluded_of_mem notebookExcluded d "G_VRH" (by decide)⟩

/-- The error pandas raises when a label to drop is absent. -/
inductive PandasError where
  | keyError : String → PandasError
deriving DecidableEq, Repr

/-- Modelled from the spec and the claim sources: pandas `DataFrame.drop`
with `axis=1` and its default error handling, as used by the notebook's
initial column-drop cell (the pandas source is not part of this
repository).  If any listed label is absent the call raises a key error
naming the first absent label; otherwise it returns the frame without the
listed columns. -/
def pandasDrop {α : Type} (labels : List String) (d : Dataset α) :
    Except PandasError (Dataset α) :=
  match labels.find? (fun l => !(hasField d l)) with
  | some l => Except.error (PandasError.keyError l)
  | none => Except.ok (dropExcluded labels d)

/-- The notebook's `unwanted_columns` list, copied from the loading cell. -/
def unwantedColumns : List String :=
  ["volume", "nsites", "compliance_tensor", "elastic_tensor",
   "elastic_tensor_original", "K_Voigt", "G_Voigt", "K_Reuss", "G_Reuss"]

/-- Specific to claim C10: the notebook's initial column-drop step fails
with an error exactly when some listed column is absent from the loaded
dataset, and succeeds (with the exclusion view) only when every listed
column is present — it does not tolerate unknown column names. -/
theorem unwanted_columns_drop_strict {α : Type} (d : Dataset α) :
    ((∃ l ∈ unwantedColumns, hasField d l = false) ↔
      ∃ e, pandasDrop unwantedColumns d = Except.error e) ∧
    ((∀ l ∈ unwantedColumns, hasField d l = true) →
      pandasDrop unwantedColumns d =
        Except.ok (dropExcluded unwantedColumns d)) := by
  rcases hfind : unwantedColumns.find? (fun l => !(hasField d l)) with _ | l
  · constructor
    · constructor
      · rintro ⟨l, hl, habs⟩
        have := List.find?_eq_none.mp hfind l hl
        simp [habs] at this
      · rintro ⟨e, he⟩
        simp [pandasDrop, hfind] at he
    · intro _
      simp [pandasDrop, hfind]
  · have hl : l ∈ unwantedColumns := List.mem_of_find?_eq_some hfind
    have habs : hasField d l = false := by
      have := List.find?_some hfind
      simpa using this
    constructor
    · constructor
      · intro _
        exact ⟨PandasError.keyError l, by simp [pandasDrop, hfind]⟩
      · intro _
        exact ⟨l, hl, habs⟩
    · intro hall
      have := hall l hl
      rw [habs] at this
      cases this

/-- Modelled from the spec: hyper-parameter grid search evaluates one
candidate fit per (parameter point, fold) pair; this is the list of those
candidate fits. -/
def gridSearchFits {γ : Type} (grid : List γ) (folds : Nat) :
    List (γ × Nat) :=
  (grid.map (fun p => (List.range folds).map (fun j => (p, j)))).flatten

/-- Modelled from the spec: randomized search samples `nIter` parameter
points and evaluates one candidate fit per (sampled point, fold) pair. -/
def randomizedSearchFits (nIter folds : Nat) : List (Nat × Nat) :=
  gridSearchFits (List.range nIter) folds

/-- The notebook's grid of `n_estimators` values for `GridSearchCV`. -/
def nbParamGrid : List Nat := [10, 15, 20, 25, 30, 50, 100]

theorem gridSearchFits_length {γ : Type} (grid : List γ) (folds : Nat) :
    (gridSearchFits grid folds).length = grid.length * folds := by
  simp [gridSearchFits, List.length_flatten, List.map_map, Function.comp]
  induction grid with
  | nil => simp
  | cons p grid ih => simp [ih, Nat.succ_mul, Nat.add_comm]

/-- Specific to claim C6: grid search performs exactly `|grid| * folds`
candidate fits (35 for the notebook's 7-value grid with 5 folds), and
randomized search performs exactly `nIter * folds` candidate fits. -/
theorem searchFits_count :
    (∀ (γ : Type) (grid : List γ) (folds : Nat),
      (gridSearchFits grid folds).length = grid.length * folds) ∧
    (gridSearchFits nbParamGrid 5).length = 35 ∧
    (∀ nIter folds : Nat,
      (randomizedSearchFits nIter folds).length = nIter * folds) :=
  ⟨fun _ grid folds => gridSearchFits_length grid folds,
   by rw [gridSearchFits_length]; decide,
   fun nIter folds => by
     rw [randomizedSearchFits, gridSearchFits_length, List.length_range]⟩

end MatminerPipeline

namespace MatminerPipeline

/-- A linear-congruential pseudo-random step, driving the split shuffles. -/
def lcg (s : Nat) : Nat := (1103515245 * s + 12345) % 2147483648

/-- Remove the element at an index, returning it with the remainder. -/
def pick {α : Type} : Nat → List α → Option (α × List α)
  | _, [] => none
  | 0, x :: rest => some (x, rest)
  | i + 1, x :: rest =>
    match pick i rest with
    | none => none
    | some (y, ys) => some (y, x :: ys)

/-- Fisher-Yates style shuffle driven by the pseudo-random stream, with
explicit fuel equal to the list length. -/
def shuffleGo {α : Type} : Nat → Nat → List α → List α
  | 0, _, xs => xs
  | _ + 1, _, [] => []
  | fuel + 1, s, x :: xs =>
    match pick (s % (x :: xs).length) (x :: xs) with
    | none => x :: xs
    | some (y, ys) => y :: shuffleGo fuel (lcg s) ys

/-- Deterministic seed-driven permutation of a list. -/
def shuffle {α : Type} (seed : Nat) (xs : List α) : List α :=
  shuffleGo xs.length seed xs

/-- Partition a permuted index list into `k` (train, test) folds. -/
def assignFolds (k : Nat) (xs : List Nat) : List (List Nat × List Nat) :=
  (List.range k).map (fun j =>
    ((xs.enum.filter (fun p => p.1 % k != j)).map Prod.snd,
     (xs.enum.filter (fun p => p.1 % k == j)).map Prod.snd))

/-- The seed actually used by a splitter: the fixed `random_state` when one
is given, otherwise ambient interpreter entropy. -/
def effectiveSeed (randomState : Option Nat) (ambient : Nat) : Nat :=
  randomState.getD ambient

/-- Modelled from the spec: `RepeatedKFold(n_splits, n_repeats,
random_state)` over `n` samples (the scikit-learn source is not part of this
repository).  Each repeat shuffles the sample indices with a seed derived
from the effective seed and the repeat number, then splits them into
`nSplits` (train, test) folds. -/
def repeatedKFold (nSplits nRepeats : Nat) (randomState : Option Nat)
    (ambient : Nat) (n : Nat) : List (List Nat × List Nat) :=
  ((List.range nRepeats).map (fun rep =>
    assignFolds nSplits
      (shuffle (lcg (effectiveSeed randomState ambient + rep))
        (List.range n)))).flatten

/-- Modelled from the spec: `cross_val_score` — for each (train, test)
split, fit the estimator on the train indices and score it on the test
indices, collecting the per-fold scores in split order. -/
def crossValScore {μ : Type} (fitOn : List Nat → μ)
    (scoreOn : μ → List Nat → Int)
    (splits : List (List Nat × List Nat)) : List Int :=
  splits.map (fun sp => scoreOn (fitOn sp.1) sp.2)

/-- Specific to claim C7: with the notebook's fixed splitter
`RepeatedKFold(n_splits=5, n_repeats=3, random_state=1)`, cross-validated
scoring is deterministic — two runs on identical inputs produce the same
splits and identical per-fold scores no matter what the ambient interpreter
entropy is in each run. -/
theorem crossval_deterministic {μ : Type} (fitOn : List Nat → μ)
    (scoreOn : μ → List Nat → Int) (n ambient₁ ambient₂ : Nat) :
    repeatedKFold 5 3 (some 1) ambient₁ n =
      repeatedKFold 5 3 (some 1) ambient₂ n ∧
    crossValScore fitOn scoreOn (repeatedKFold 5 3 (some 1) ambient₁ n) =
      crossValScore fitOn scoreOn (repeatedKFold 5 3 (some 1) ambient₂ n) :=
  ⟨rfl, rfl⟩

end MatminerPipeline

namespace MatminerPipeline

/-- A numeric feature sub-matrix: a list of rows. -/
abbrev FeatMatrix (β : Type) := List (List β)

/-- Horizontal concatenation of two row-aligned matrices. -/
def hcat {β : Type} (A B : FeatMatrix β) : FeatMatrix β :=
  List.zipWith (fun a b => a ++ b) A B

/-- Horizontal concatenation of a non-empty list of row-aligned matrices,
in the given order. -/
def hcatAll {β : Type} : List (FeatMatrix β) → FeatMatrix β
  | [] => []
  | [m] => m
  | m :: m' :: ms => hcat m (hcatAll (m' :: ms))

/-- Modelled from the spec: `FeatureUnion` over an ordered list of
sub-pipelines (the scikit-learn source is not part of this repository).
Each sub-pipeline maps the dataset to a numeric sub-matrix; the union is the
horizontal concatenation of the sub-matrix outputs in the declared order. -/
def featureUnion {α β : Type} (ps : List (Dataset α → FeatMatrix β))
    (d : Dataset α) : FeatMatrix β :=
  hcatAll (ps.map (fun p => p d))

theorem hcat_length {β : Type} (A B : FeatMatrix β) :
    (hcat A B).length = min A.length B.length :=
  List.length_zipWith (fun a b => a ++ b) A B

theorem getD_mem_of_lt {β : Type} (l : List β) (j : Nat) (d : β)
    (h : j < l.length) : l.getD j d ∈ l := by
  rw [List.getD_eq_getElem?_getD, List.getElem?_eq_getElem h]
  exact List.getElem_mem h

theorem hcat_getD {β : Type} :
    ∀ (A B : FeatMatrix β) (j : Nat), j < A.length → j < B.length →
      (hcat A B).getD j [] = A.getD j [] ++ B.getD j [] := by
  intro A
  induction A with
  | nil =>
    intro B j hA
    simp at hA
  | cons a A ih =>
    intro B j hA hB
    cases B with
    | nil => simp at hB
    | cons b B =>
      cases j with
      | zero => rfl
      | succ j =>
        simp only [hcat, List.zipWith_cons_cons, List.getD_cons_succ]
        exact ih B j (Nat.lt_of_succ_lt_succ hA) (Nat.lt_of_succ_lt_succ hB)

theorem hcatAll_length {β : Type} (r : Nat) :
    ∀ ms : List (FeatMatrix β), ms ≠ [] → (∀ m ∈ ms, m.length = r) →
      (hcatAll ms).length = r := by
  intro ms
  induction ms with
  | nil => intro h; exact absurd rfl h
  | cons m ms ih =>
    intro _ hall
    cases ms with
    | nil => simpa using hall m (by simp)
    | cons m' ms' =>
      have hm : m.length = r := hall m (by simp)
      have htail : (hcatAll (m' :: ms')).length = r :=
        ih (by simp) (fun x hx => hall x (List.mem_cons_of_mem m hx))
      show (hcat m (hcatAll (m' :: ms'))).length = r
      rw [hcat_length, hm, htail, Nat.min_self]

theorem hcatAll_getD {β : Type} (r : Nat) :
    ∀ (ms : List (FeatMatrix β)) (j : Nat), ms ≠ [] →
      (∀ m ∈ ms, m.length = r) → j < r →
      (hcatAll ms).getD j [] =
        (ms.map (fun m => m.getD j [])).flatten := by
  intro ms
  induction ms with
  | nil => intro j h; exact absurd rfl h
  | cons m ms ih =>
    intro j _ hall hj
    cases ms with
    | nil => simp [hcatAll]
    | cons m' ms' =>
      have hm : j < m.length := by
        rw [hall m (by simp)]
        exact hj
      have htail : j < (hcatAll (m' :: ms')).length := by
        rw [hcatAll_length r (m' :: ms') (by simp)
          (fun x hx => hall x (List.mem_cons_of_mem m hx))]
        exact hj
      show (hcat m (hcatAll (m' :: ms'))).getD j [] = _
      rw [hcat_getD m (hcatAll (m' :: ms')) j hm htail,
        ih j (by simp) (fun x hx => hall x (List.mem_cons_of_mem m hx)) hj]
      simp

theorem map_getD_length_eq {β : Type} (r j : Nat) (hj : j < r) :
    ∀ (ms : List (FeatMatrix β)) (ks : List Nat),
      List.Forall₂ (fun m k => ∀ row ∈ m, row.length = k) ms ks →
      (∀ m ∈ ms, m.length = r) →
      ms.map (fun m => (m.getD j []).length) = ks := by
  intro ms ks hw
  induction hw with
  | nil => intro _; rfl
  | @cons m k ms' ks' hmk _ ih =>
    intro hall
    have hm : j < m.length := by
      rw [hall m (by simp)]
      exact hj
    have hhead : (m.getD j []).length = k :=
      hmk (m.getD j []) (getD_mem_of_lt m j [] hm)
    simp only [List.map_cons, hhead,
      ih (fun x hx => hall x (List.mem_cons_of_mem m hx))]

/-- Specific to claim C1: for any configuration of the feature union whose
sub-pipelines produce sub-matrices of `r` rows and widths `ks` on a dataset,
the union's output has `r` rows, every row has `ks.sum` entries, and each
output row is the concatenation of the sub-matrix rows in the declared
sub-pipeline order (column blocks in order). -/
theorem featureUnion_hconcat {α β : Type}
    (ps : List (Dataset α → FeatMatrix β)) (d : Dataset α)
    (ks : List Nat) (r : Nat)
    (hne : ps.map (fun p => p d) ≠ [])
    (hr : ∀ m ∈ ps.map (fun p => p d), m.length = r)
    (hw : List.Forall₂ (fun m k => ∀ row ∈ m, row.length = k)
      (ps.map (fun p => p d)) ks) :
    (featureUnion ps d).length = r ∧
    (∀ row ∈ featureUnion ps d, row.length = ks.sum) ∧
    (∀ j, j < r → (featureUnion ps d).getD j [] =
      (ps.map (fun p => (p d).getD j [])).flatten) := by
  have hlen : (featureUnion ps d).length = r := by
    show (hcatAll (ps.map (fun p => p d))).length = r
    exact hcatAll_length r (ps.map (fun p => p d)) hne hr
  have hget : ∀ j, j < r → (featureUnion ps d).getD j [] =
      (ps.map (fun p => (p d).getD j [])).flatten := by
    intro j hj
    rw [featureUnion, hcatAll_getD r (ps.map (fun p => p d)) j hne hr hj,
      List.map_map]
    rfl
  refine ⟨hlen, ?_, hget⟩
  intro row hrow
  rcases List.mem_iff_getElem.mp hrow with ⟨j, hjlen, hjrow⟩
  have hj : j < r := by
    rw [← hlen]
    exact hjlen
  have hrowD : (featureUnion ps d).getD j [] = row := by
    rw [List.getD_eq_getElem?_getD, List.getElem?_eq_getElem hjlen]
    exact hjrow
  rw [← hrowD, hget j hj, List.length_flatten, List.map_map]
  have h2 : List.map (List.length ∘ fun p => List.getD (p d) j []) ps = ks := by
    have h3 := map_getD_length_eq r j hj (ps.map (fun p => p d)) ks hw hr
    rw [List.map_map] at h3
    exact h3
  rw [h2]

/-- A constant two-row, one-column sub-pipeline used in the witness. -/
def pA : Dataset Nat → FeatMatrix Int := fun _ => [[10], [20]]

/-- A constant two-row, two-column sub-pipeline used in the witness. -/
def pB : Dataset Nat → FeatMatrix Int := fun _ => [[3, 4], [5, 6]]

/-- Witness for `featureUnion_hconcat` at two concrete sub-pipelines. -/
theorem featureUnion_hconcat_witness :
    (featureUnion [pA, pB] dSample).length = 2 ∧
    (∀ row ∈ featureUnion [pA, pB] dSample, row.length = [1, 2].sum) ∧
    (∀ j, j < 2 → (featureUnion [pA, pB] dSample).getD j [] =
      (([pA, pB].map (fun p => (p dSample).getD j []))).flatten) := by
  refine featureUnion_hconcat [pA, pB] dSample [1, 2] 2 (by decide)
    (by decide) ?_
  refine List.Forall₂.cons ?_ (List.Forall₂.cons ?_ List.Forall₂.nil)
  · decide
  · decide

end MatminerPipeline
